import Mathlib

/-!
Verification of the super-prompt agent runtime against its specification.

This file gives a shallow embedding, in Lean 4, of the parts of the
`super_prompt` Python code base that the testable claims of the specification
talk about, and proves or refutes each claim.

Strings are modelled as `List Char` (Python `str` is a sequence of code
points; all operations used by the code — slicing, `splitlines(keepends=True)`,
`strip`, `startswith`, substring membership — are faithfully reproduced on
`List Char`).

The embedded functions are translated from:
* `src/super_prompt/code_agent.py` (`CodeAgent.read_file`, `edit_lines`,
  `delete_lines`, `apply_edits`);
* `src/super_prompt/tools/file_system.py` (`write_file`);
* `src/super_prompt/tools/code_editing.py` (`insert_lines`);
* `src/super_prompt/tools/shell.py` (`run_command`);
* `src/super_prompt/modern_ai_agent.py` (`execute_task`: the ReAct loop,
  the blocking / repeat detector, the model router, the phase structure).
-/

/-- Python whitespace characters recognised by `str.strip()` (the ASCII
ones; the code only ever deals with ASCII whitespace). -/
def pyWhitespace : List Char := [' ', '\t', '\n', '\r', '\x0b', '\x0c']

/-- `c` is Python whitespace. -/
def isPyWS (c : Char) : Bool := pyWhitespace.contains c

/-- Python `str.lstrip()`. -/
def pyLstrip (s : List Char) : List Char := s.dropWhile isPyWS

/-- Python `str.rstrip()`. -/
def pyRstrip (s : List Char) : List Char := (s.reverse.dropWhile isPyWS).reverse

/-- Python `str.strip()`. -/
def pyStrip (s : List Char) : List Char := pyLstrip (pyRstrip s)

/-- `s` ends with a newline character. -/
def endsNL (s : List Char) : Bool := s.getLast? = some '\n'

/-- Prepend a character to the first line of an already split tail
(helper for `splitLinesKeep`). -/
def consLine (c : Char) : List (List Char) → List (List Char)
  | [] => [[c]]
  | l :: ls => (c :: l) :: ls

/-- Python `str.splitlines(keepends=True)` restricted to `'\n'` line
terminators (the only terminator ever produced by the editors of this agent). -/
def splitLinesKeep : List Char → List (List Char)
  | [] => []
  | c :: rest =>
    if c = '\n' then ['\n'] :: splitLinesKeep rest
    else consLine c (splitLinesKeep rest)

/-- The guard used throughout the editors: append a final newline to a
nonempty content block that lacks one (`if new_content and not
new_content.endswith('\n'): new_content += '\n'`). -/
def ensureNL (s : List Char) : List Char :=
  if s ≠ [] ∧ ¬ endsNL s then s ++ ['\n'] else s

/-- A chunk is a nonempty character list with no newline except possibly
as its final character; `splitLinesKeep` produces only chunks. -/
def IsChunk (l : List Char) : Prop := l ≠ [] ∧ ∀ c ∈ l.dropLast, c ≠ '\n'

theorem getLast?_cons_ne_nil {α : Type} {c : α} {l : List α} (h : l ≠ []) :
    (c :: l).getLast? = l.getLast? := by
  cases l with
  | nil => exact absurd rfl h
  | cons b t => exact List.getLast?_cons_cons

@[simp] theorem consLine_nil (c : Char) : consLine c [] = [[c]] := rfl

@[simp] theorem consLine_cons (c : Char) (l : List Char) (ls : List (List Char)) :
    consLine c (l :: ls) = (c :: l) :: ls := rfl

@[simp] theorem splitLinesKeep_nil : splitLinesKeep [] = [] := rfl

theorem splitLinesKeep_cons (c : Char) (rest : List Char) :
    splitLinesKeep (c :: rest) =
      if c = '\n' then ['\n'] :: splitLinesKeep rest
      else consLine c (splitLinesKeep rest) := rfl

theorem splitLinesKeep_eq_nil_iff {s : List Char} :
    splitLinesKeep s = [] ↔ s = [] := by
  constructor
  · intro h
    cases s with
    | nil => rfl
    | cons c rest =>
      rw [splitLinesKeep_cons] at h
      by_cases hc : c = '\n'
      · simp [hc] at h
      · simp only [hc, if_false] at h
        cases hsr : splitLinesKeep rest <;> simp [hsr] at h
  · intro h; subst h; rfl

theorem flatten_splitLinesKeep (s : List Char) : (splitLinesKeep s).flatten = s := by
  induction s with
  | nil => rfl
  | cons c rest ih =>
    rw [splitLinesKeep_cons]
    by_cases hc : c = '\n'
    · subst hc; simpa using ih
    · simp only [hc, if_false]
      cases hsr : splitLinesKeep rest with
      | nil =>
        have : rest = [] := splitLinesKeep_eq_nil_iff.mp hsr
        subst this; simp
      | cons l ls =>
        rw [hsr] at ih
        simp only [List.flatten_cons, consLine_cons] at ih ⊢
        simp [ih]

theorem splitLinesKeep_chunk (s : List Char) :
    ∀ l ∈ splitLinesKeep s, IsChunk l := by
  induction s with
  | nil => intro l hl; simp at hl
  | cons c rest ih =>
    intro l hl
    rw [splitLinesKeep_cons] at hl
    by_cases hc : c = '\n'
    · simp only [hc, if_true, List.mem_cons] at hl
      rcases hl with h | h
      · subst h; exact ⟨by simp, by simp⟩
      · exact ih l h
    · simp only [hc, if_false] at hl
      cases hsr : splitLinesKeep rest with
      | nil =>
        rw [hsr] at hl
        simp only [consLine_nil, List.mem_singleton] at hl
        subst hl; exact ⟨by simp, by simp⟩
      | cons l0 ls =>
        rw [hsr] at hl
        simp only [consLine_cons, List.mem_cons] at hl
        rcases hl with h | h
        · subst h
          have hl0 : IsChunk l0 := ih l0 (by rw [hsr]; exact List.mem_cons_self _ _)
          refine ⟨by simp, ?_⟩
          intro d hd
          rcases hl0 with ⟨hne, hno⟩
          rw [List.dropLast_cons_of_ne_nil hne] at hd
          rcases List.mem_cons.mp hd with h1 | h1
          · subst h1; exact hc
          · exact hno d h1
        · exact ih l (by rw [hsr]; exact List.mem_cons_of_mem _ h)

theorem splitLinesKeep_terminated_of_endsNL (s : List Char)
    (hs : endsNL s = true) : ∀ l ∈ splitLinesKeep s, endsNL l = true := by
  induction s with
  | nil => intro l hl; simp at hl
  | cons c rest ih =>
    intro l hl
    rw [splitLinesKeep_cons] at hl
    by_cases hc : c = '\n'
    · simp only [hc, if_true, List.mem_cons] at hl
      rcases hl with h | h
      · subst h; rfl
      · have hrest : rest ≠ [] := by
          intro h0; subst h0; simp at h
        have hrestNL : endsNL rest = true := by
          unfold endsNL at hs ⊢
          rwa [getLast?_cons_ne_nil hrest] at hs
        exact ih hrestNL l h
    · have hrest : rest ≠ [] := by
        intro h0
        subst h0
        unfold endsNL at hs
        simp at hs
        exact hc hs
      have hrestNL : endsNL rest = true := by
        unfold endsNL at hs ⊢
        rwa [getLast?_cons_ne_nil hrest] at hs
      simp only [hc, if_false] at hl
      cases hsr : splitLinesKeep rest with
      | nil => exact absurd (splitLinesKeep_eq_nil_iff.mp hsr) hrest
      | cons l0 ls =>
        rw [hsr] at hl
        simp only [consLine_cons, List.mem_cons] at hl
        rcases hl with h | h
        · subst h
          have hl0 : endsNL l0 = true :=
            ih hrestNL l0 (by rw [hsr]; exact List.mem_cons_self _ _)
          have hl0ne : l0 ≠ [] :=
            (splitLinesKeep_chunk rest l0 (by rw [hsr]; exact List.mem_cons_self _ _)).1
          unfold endsNL at hl0 ⊢
          rwa [getLast?_cons_ne_nil hl0ne]
        · exact ih hrestNL l (by rw [hsr]; exact List.mem_cons_of_mem _ h)

theorem splitLinesKeep_terminated_dropLast (s : List Char) :
    ∀ l ∈ (splitLinesKeep s).dropLast, endsNL l = true := by
  induction s with
  | nil => intro l hl; simp at hl
  | cons c rest ih =>
    intro l hl
    rw [splitLinesKeep_cons] at hl
    by_cases hc : c = '\n'
    · simp only [hc, if_true] at hl
      cases hsr : splitLinesKeep rest with
      | nil => rw [hsr] at hl; simp at hl
      | cons l0 ls =>
        rw [hsr] at hl
        rw [List.dropLast_cons_of_ne_nil (by simp)] at hl
        rcases List.mem_cons.mp hl with h | h
        · subst h; rfl
        · exact ih l (by rw [hsr]; exact h)
    · simp only [hc, if_false] at hl
      cases hsr : splitLinesKeep rest with
      | nil => rw [hsr] at hl; simp at hl
      | cons l0 ls =>
        rw [hsr] at hl
        cases hls : ls with
        | nil => rw [hls] at hl; simp at hl
        | cons l1 ls1 =>
          rw [hls] at hl
          simp only [consLine_cons] at hl
          rw [List.dropLast_cons_of_ne_nil (by simp)] at hl
          rcases List.mem_cons.mp hl with h | h
          · subst h
            have hl0 : endsNL l0 = true := by
              have := ih l0
              rw [hsr, hls] at this
              exact this (by rw [List.dropLast_cons_of_ne_nil (by simp)]
                             exact List.mem_cons_self _ _)
            have hl0ne : l0 ≠ [] :=
              (splitLinesKeep_chunk rest l0 (by rw [hsr]; exact List.mem_cons_self _ _)).1
            unfold endsNL at hl0 ⊢
            rwa [getLast?_cons_ne_nil hl0ne]
          · refine ih l ?_
            rw [hsr, hls]
            rw [List.dropLast_cons_of_ne_nil (by simp)]
            exact List.mem_cons_of_mem _ h

theorem splitLinesKeep_chunk_append {l : List Char} (t : List Char)
    (hch : IsChunk l) (hnl : endsNL l = true) :
    splitLinesKeep (l ++ t) = l :: splitLinesKeep t := by
  induction l with
  | nil => exact absurd rfl hch.1
  | cons c rest ih =>
    cases hr : rest with
    | nil =>
      subst hr
      have hc : c = '\n' := by
        unfold endsNL at hnl; simpa using hnl
      subst hc
      simp [splitLinesKeep_cons]
    | cons b t2 =>
      subst hr
      have hrne : (b :: t2) ≠ [] := by simp
      have hc : c ≠ '\n' := by
        have := hch.2 c
        rw [List.dropLast_cons_of_ne_nil hrne] at this
        exact this (List.mem_cons_self _ _)
      have hchr : IsChunk (b :: t2) := by
        refine ⟨hrne, ?_⟩
        intro d hd
        refine hch.2 d ?_
        rw [List.dropLast_cons_of_ne_nil hrne]
        exact List.mem_cons_of_mem _ hd
      have hnlr : endsNL (b :: t2) = true := by
        unfold endsNL at hnl ⊢
        rwa [getLast?_cons_ne_nil hrne] at hnl
      have ihr := ih hchr hnlr
      show splitLinesKeep (c :: ((b :: t2) ++ t)) = (c :: (b :: t2)) :: splitLinesKeep t
      rw [splitLinesKeep_cons]
      simp only [hc, if_false]
      rw [ihr, consLine_cons]

theorem splitLinesKeep_flatten_append {ls : List (List Char)} (t : List Char)
    (h : ∀ l ∈ ls, IsChunk l ∧ endsNL l = true) :
    splitLinesKeep (ls.flatten ++ t) = ls ++ splitLinesKeep t := by
  induction ls with
  | nil => simp
  | cons l ls ih =>
    have hl := h l (List.mem_cons_self _ _)
    have hrest : ∀ l2 ∈ ls, IsChunk l2 ∧ endsNL l2 = true :=
      fun l2 hl2 => h l2 (List.mem_cons_of_mem _ hl2)
    rw [List.flatten_cons, List.append_assoc,
        splitLinesKeep_chunk_append _ hl.1 hl.2, ih hrest, List.cons_append]

theorem splitLinesKeep_append_of_endsNL {s : List Char} (t : List Char)
    (hs : endsNL s = true) :
    splitLinesKeep (s ++ t) = splitLinesKeep s ++ splitLinesKeep t := by
  have h : ∀ l ∈ splitLinesKeep s, IsChunk l ∧ endsNL l = true :=
    fun l hl => ⟨splitLinesKeep_chunk s l hl,
                 splitLinesKeep_terminated_of_endsNL s hs l hl⟩
  calc splitLinesKeep (s ++ t)
      = splitLinesKeep ((splitLinesKeep s).flatten ++ t) := by
        rw [flatten_splitLinesKeep]
    _ = splitLinesKeep s ++ splitLinesKeep t :=
        splitLinesKeep_flatten_append t h

theorem splitLinesKeep_flatten {ls : List (List Char)}
    (h : ∀ l ∈ ls, IsChunk l ∧ endsNL l = true) :
    splitLinesKeep ls.flatten = ls := by
  have := splitLinesKeep_flatten_append [] h
  simpa using this

/-! ## Safe file editor: `insert_lines`, `edit_lines`, `apply_edits`

`insert_lines` (tools/code_editing.py) reads the file, splits it with
`splitlines(keepends=True)`, validates `0 <= after_line <= total_lines`,
newline-terminates the content, splices
`lines[:after_line] + [content] + lines[after_line:]` and writes the
join back.  `edit_lines` (code_agent.py) validates
`start_line >= 1`, `end_line >= 1`, `start_line <= len(lines)+1`,
`end_line <= len(lines)+1` and splices
`lines[:start_line-1] + [new_content] + lines[end_line:]`.
`apply_edits` (code_agent.py) sorts a batch of edits by `start_line`
descending (Python `sorted` — a stable sort), validates all of them
against the pre-batch snapshot, then folds the same splice over the
sorted batch.  Errors return `False`/`❌ …` without writing; they are
modelled by `Option.none` (file unchanged). -/

/-- `insert_lines(filepath, after_line, content)` from
`tools/code_editing.py`, as a function from the current file contents to
the written contents (`none` = validation error, nothing written). -/
def insertLines (file : List Char) (afterLine : Int) (content : List Char) :
    Option (List Char) :=
  let lines := splitLinesKeep file
  let totalLines : Int := lines.length
  if afterLine < 0 ∨ afterLine > totalLines then none
  else
    let k := afterLine.toNat
    let nc := ensureNL content
    some (lines.take k ++ [nc] ++ lines.drop k).flatten

/-- `CodeAgent.edit_lines(filepath, start_line, end_line, new_content)`
from `code_agent.py`, as a function from the current file contents to
the written contents (`none` = validation error, nothing written). -/
def editLines (file : List Char) (startLine endLine : Int)
    (newContent : List Char) : Option (List Char) :=
  let lines := splitLinesKeep file
  let n : Int := lines.length
  if startLine < 1 ∨ endLine < 1 then none
  else if startLine > n + 1 then none
  else if endLine > n + 1 then none
  else
    let startIdx := (startLine - 1).toNat
    let endIdx := endLine.toNat
    let nc := ensureNL newContent
    some (lines.take startIdx ++ [nc] ++ lines.drop endIdx).flatten

/-- The transient file-edit record (`FileEdit` dataclass in
`code_agent.py`). -/
structure FileEdit where
  start_line : Int
  end_line : Int
  new_content : List Char
deriving DecidableEq, Repr

/-- One edit of `apply_edits`: splice
`lines[:start_line-1] + [new_content] + lines[end_line:]`. -/
def applyOneEdit (lines : List (List Char)) (e : FileEdit) : List (List Char) :=
  lines.take (e.start_line - 1).toNat ++ [ensureNL e.new_content] ++
    lines.drop e.end_line.toNat

/-- The bounds check `apply_edits` runs for every edit against the
pre-batch snapshot. -/
def editValid (n : Int) (e : FileEdit) : Bool :=
  !(e.start_line < 1 ∨ e.end_line < 1) &&
    !(e.start_line > n + 1 ∨ e.end_line > n + 1)

/-- The sort key order used by `apply_edits`:
`sorted(edits, key=lambda e: e.start_line, reverse=True)` — `e1` may
come before `e2` iff `e1.start_line ≥ e2.start_line`; the sort of Python is
stable, as is `List.insertionSort`. -/
def editGE (e1 e2 : FileEdit) : Prop := e2.start_line ≤ e1.start_line

instance : DecidableRel editGE := fun e1 e2 =>
  inferInstanceAs (Decidable (e2.start_line ≤ e1.start_line))

/-- `CodeAgent.apply_edits(filepath, edits)` from `code_agent.py`, as a
function from the current file contents to the written contents
(`none` = empty batch or validation failure, nothing written). -/
def applyEdits (file : List Char) (edits : List FileEdit) :
    Option (List Char) :=
  if edits = [] then none
  else
    let sortedEdits := edits.insertionSort editGE
    let lines := splitLinesKeep file
    let n : Int := lines.length
    if sortedEdits.all (editValid n) then
      some (sortedEdits.foldl applyOneEdit lines).flatten
    else none

theorem length_consLine_ne_nil {c : Char} {ls : List (List Char)} (h : ls ≠ []) :
    (consLine c ls).length = ls.length := by
  cases ls with
  | nil => exact absurd rfl h
  | cons l t => rfl

theorem endsNL_cons_ne_nil {c : Char} {l : List Char} (h : l ≠ []) :
    endsNL (c :: l) = endsNL l := by
  unfold endsNL
  rw [getLast?_cons_ne_nil h]

theorem length_splitLinesKeep_append_nl (s : List Char) (hne : s ≠ [])
    (hnl : endsNL s = false) :
    (splitLinesKeep (s ++ ['\n'])).length = (splitLinesKeep s).length := by
  induction s with
  | nil => exact absurd rfl hne
  | cons c rest ih =>
    cases hr : rest with
    | nil =>
      subst hr
      have hc : c ≠ '\n' := by
        unfold endsNL at hnl
        simpa using hnl
      simp [splitLinesKeep_cons, hc]
    | cons b t2 =>
      subst hr
      have hrne : (b :: t2) ≠ [] := by simp
      have hrnl : endsNL (b :: t2) = false := by
        rwa [endsNL_cons_ne_nil hrne] at hnl
      have ihr := ih hrne hrnl
      by_cases hc : c = '\n'
      · subst hc
        rw [List.cons_append, splitLinesKeep_cons '\n' ((b :: t2) ++ ['\n']),
            splitLinesKeep_cons '\n' (b :: t2)]
        simp only [if_true, List.length_cons, ihr, reduceIte]
      · have h1 : splitLinesKeep ((b :: t2) ++ ['\n']) ≠ [] := by
          rw [Ne, splitLinesKeep_eq_nil_iff]
          simp
        have h2 : splitLinesKeep (b :: t2) ≠ [] := by
          rw [Ne, splitLinesKeep_eq_nil_iff]
          simp
        rw [List.cons_append, splitLinesKeep_cons c ((b :: t2) ++ ['\n']),
            splitLinesKeep_cons c (b :: t2)]
        simp only [hc, if_false]
        rw [length_consLine_ne_nil h1, length_consLine_ne_nil h2]
        exact ihr

theorem endsNL_ensureNL {s : List Char} (h : s ≠ []) :
    endsNL (ensureNL s) = true := by
  unfold ensureNL
  by_cases hnl : endsNL s
  · simp [h, hnl]
  · have harm : (if s ≠ [] ∧ ¬ endsNL s = true then s ++ ['\n'] else s) = s ++ ['\n'] := by
      simp [h, hnl]
    rw [harm]
    unfold endsNL
    rw [List.getLast?_concat]
    decide

theorem ensureNL_ne_nil {s : List Char} (h : s ≠ []) : ensureNL s ≠ [] := by
  unfold ensureNL
  by_cases hnl : endsNL s <;> simp [h, hnl]

theorem length_splitLinesKeep_ensureNL (s : List Char) :
    (splitLinesKeep (ensureNL s)).length = (splitLinesKeep s).length := by
  unfold ensureNL
  by_cases hne : s = []
  · simp [hne]
  · by_cases hnl : endsNL s
    · simp [hne, hnl]
    · simp only [hne, hnl, ne_eq, not_false_eq_true, Bool.not_eq_true, true_and,
        not_true_eq_false, if_true, if_false]
      exact length_splitLinesKeep_append_nl s hne (by simpa using hnl)

theorem ensureNL_nil : ensureNL [] = [] := by simp [ensureNL]

theorem take_splitLinesKeep_terminated (file : List Char) (k : Nat)
    (h : k < (splitLinesKeep file).length ∨ endsNL file = true) :
    ∀ l ∈ (splitLinesKeep file).take k, IsChunk l ∧ endsNL l = true := by
  intro l hl
  refine ⟨splitLinesKeep_chunk file l (List.take_subset _ _ hl), ?_⟩
  rcases h with h | h
  · have hk1 : k ≤ (splitLinesKeep file).length - 1 := by omega
    have htake : (splitLinesKeep file).take k =
        ((splitLinesKeep file).dropLast).take k := by
      rw [List.dropLast_eq_take, List.take_take, min_eq_left hk1]
    rw [htake] at hl
    exact splitLinesKeep_terminated_dropLast file l (List.take_subset _ _ hl)
  · exact splitLinesKeep_terminated_of_endsNL file h l (List.take_subset _ _ hl)

theorem splitLinesKeep_insert (file nc : List Char) (k : Nat)
    (hpre : ∀ l ∈ (splitLinesKeep file).take k, IsChunk l ∧ endsNL l = true)
    (hnc : nc ≠ [] → endsNL nc = true) :
    splitLinesKeep
        ((splitLinesKeep file).take k ++ [nc] ++ (splitLinesKeep file).drop k).flatten =
      (splitLinesKeep file).take k ++ splitLinesKeep nc ++
        (splitLinesKeep file).drop k := by
  set L := splitLinesKeep file with hL
  have hfile : L.flatten = file := flatten_splitLinesKeep file
  have hpp : (L.take k).flatten ++ (L.drop k).flatten = file := by
    rw [← List.flatten_append, List.take_append_drop, hfile]
  have hpost : splitLinesKeep (L.drop k).flatten = L.drop k := by
    have h1 : splitLinesKeep ((L.take k).flatten ++ (L.drop k).flatten) =
        L.take k ++ splitLinesKeep (L.drop k).flatten :=
      splitLinesKeep_flatten_append _ hpre
    rw [hpp] at h1
    have h2 : L.take k ++ L.drop k = L.take k ++ splitLinesKeep (L.drop k).flatten := by
      rw [List.take_append_drop, hL]
      exact h1
    exact (List.append_cancel_left h2).symm
  by_cases hncnil : nc = []
  · subst hncnil
    have : (L.take k ++ [([] : List Char)] ++ L.drop k).flatten = file := by
      simp only [List.flatten_append, List.flatten_cons, List.flatten_nil]
      simpa using hpp
    rw [this, ← hL]
    simp [List.take_append_drop]
  · have hncNL : endsNL nc = true := hnc hncnil
    have hsplit : (L.take k ++ [nc] ++ L.drop k).flatten =
        (L.take k).flatten ++ (nc ++ (L.drop k).flatten) := by
      simp [List.flatten_append]
    rw [hsplit, splitLinesKeep_flatten_append _ hpre,
        splitLinesKeep_append_of_endsNL _ hncNL, hpost, List.append_assoc]

/-- Claim C7 (amended).  Insert vs. replace disjointness: if
`insert_lines(path, after-line=k, content=C)` runs against a file of `N`
lines with `0 ≤ k ≤ N`, **and** the insertion point does not fall after
an unterminated final line (i.e. `k < N`, or the file ends in a newline,
or the file is empty), then the call succeeds, the file afterwards has
`N + (number of lines in C)` lines, every line before the insertion
point — in particular the original line at index `k` — is unchanged, and
the inserted content follows immediately at line index `k` (0-based),
i.e. after the original line `k` (1-based). -/
theorem insertLines_spec (file content : List Char) (k : Nat)
    (hk : k ≤ (splitLinesKeep file).length)
    (hterm : k < (splitLinesKeep file).length ∨ endsNL file = true ∨ file = []) :
    ∃ out, insertLines file (k : Int) content = some out ∧
      splitLinesKeep out =
        (splitLinesKeep file).take k ++ splitLinesKeep (ensureNL content) ++
          (splitLinesKeep file).drop k ∧
      (splitLinesKeep out).length =
        (splitLinesKeep file).length + (splitLinesKeep content).length ∧
      (splitLinesKeep out).drop k =
        splitLinesKeep (ensureNL content) ++ (splitLinesKeep file).drop k ∧
      ∀ i : Nat, i < k → (splitLinesKeep out)[i]? = (splitLinesKeep file)[i]? := by
  have hcond : ¬((k : Int) < 0 ∨ (k : Int) > ((splitLinesKeep file).length : Int)) := by
    omega
  have h1 : insertLines file (k : Int) content =
      some ((splitLinesKeep file).take k ++ [ensureNL content] ++
        (splitLinesKeep file).drop k).flatten := by
    simp only [insertLines, Int.toNat_natCast]
    rw [if_neg hcond]
  have hpre : ∀ l ∈ (splitLinesKeep file).take k, IsChunk l ∧ endsNL l = true := by
    rcases hterm with h | h | h
    · exact take_splitLinesKeep_terminated file k (Or.inl h)
    · exact take_splitLinesKeep_terminated file k (Or.inr h)
    · intro l hl
      subst h
      simp at hl
  have hnc : ensureNL content ≠ [] → endsNL (ensureNL content) = true := by
    intro h
    apply endsNL_ensureNL
    intro hc
    subst hc
    exact h ensureNL_nil
  have key := splitLinesKeep_insert file (ensureNL content) k hpre hnc
  have hlen : ((splitLinesKeep file).take k).length = k := by
    rw [List.length_take]
    exact min_eq_left hk
  refine ⟨_, h1, key, ?_, ?_, ?_⟩
  · rw [key]
    simp only [List.length_append, hlen, List.length_drop,
      length_splitLinesKeep_ensureNL]
    omega
  · rw [key, List.append_assoc]
    exact List.drop_left' hlen
  · intro i hi
    rw [key, List.append_assoc, List.getElem?_append]
    rw [if_pos (by rw [hlen]; exact hi)]
    rw [List.getElem?_take, if_pos hi]

/-- Witness for `insertLines_spec`: spec scenario C — inserting `"X"`
after line 1 of the three-line file `"a\nb\nc\n"`. -/
theorem insertLines_spec_witness :
    ∃ out, insertLines "a\nb\nc\n".data ((1 : Nat) : Int) "X".data = some out ∧
      splitLinesKeep out =
        (splitLinesKeep "a\nb\nc\n".data).take 1 ++
          splitLinesKeep (ensureNL "X".data) ++
          (splitLinesKeep "a\nb\nc\n".data).drop 1 ∧
      (splitLinesKeep out).length =
        (splitLinesKeep "a\nb\nc\n".data).length +
          (splitLinesKeep "X".data).length ∧
      (splitLinesKeep out).drop 1 =
        splitLinesKeep (ensureNL "X".data) ++
          (splitLinesKeep "a\nb\nc\n".data).drop 1 ∧
      ∀ i : Nat, i < 1 →
        (splitLinesKeep out)[i]? = (splitLinesKeep "a\nb\nc\n".data)[i]? :=
  insertLines_spec "a\nb\nc\n".data "X".data 1 (by decide) (by decide)

/-- Claim C7 counterexample.  `insert_lines` against the two-line file
`"a\nb"` (whose last line has no trailing newline) with `after_line = 2`
and content `"X"` succeeds but produces `"a\nbX\n"`: the result has 2
lines (not the claimed `2 + 1 = 3`), and the original line at index 2
(`"b"`) has been changed to `"bX\n"` — the inserted content merged into
it instead of following it. -/
theorem insertLines_C7_counterexample :
    (splitLinesKeep "a\nb".data).length = 2 ∧
    insertLines "a\nb".data 2 "X".data = some "a\nbX\n".data ∧
    (splitLinesKeep "a\nbX\n".data).length = 2 ∧
    ¬ (splitLinesKeep "a\nbX\n".data)[1]? = (splitLinesKeep "a\nb".data)[1]? := by
  decide

/-- Claim C8 (amended).  `edit_lines` bounds validation: the call is
rejected (and the file left unchanged, modelled by `none`) exactly when
`start-line < 1`, or `end-line < 1`, or `start-line > line-count + 1`,
or `end-line > line-count + 1`.  In particular `end-line = line-count+1`
is accepted (not only `start = line-count+1` for pure append), and no
relation between `start-line` and `end-line` is enforced: `start-line`
may exceed `end-line` arbitrarily, in which case the call acts as an
insertion (with duplication when `end-line < start-line - 1`). -/
theorem editLines_bounds_spec (file newContent : List Char) (s e : Int) :
    editLines file s e newContent = none ↔
      s < 1 ∨ e < 1 ∨ s > (splitLinesKeep file).length + 1 ∨
        e > (splitLinesKeep file).length + 1 := by
  simp only [editLines]
  split_ifs with h1 h2 h3
  · exact iff_of_true rfl (by tauto)
  · exact iff_of_true rfl (by tauto)
  · exact iff_of_true rfl (by tauto)
  · refine iff_of_false (by simp) ?_
    push_neg at h1 ⊢
    exact ⟨h1.1, h1.2, not_lt.mp h2, not_lt.mp h3⟩

/-- Claim C8 counterexample.  Against the three-line file `"a\nb\nc\n"`,
the call `edit_lines(1, 4, "X")` has `end-line = 4` beyond the line
count `3`, and `edit_lines(3, 1, "X")` has `start-line > end-line` in a
non-append form; the claim says both must return an `❌` error and leave
the file unchanged, but both succeed and write (the second one even
duplicating line 2). -/
theorem editLines_C8_counterexample :
    (splitLinesKeep "a\nb\nc\n".data).length = 3 ∧
    editLines "a\nb\nc\n".data 1 4 "X".data = some "X\n".data ∧
    editLines "a\nb\nc\n".data 3 1 "X".data = some "a\nb\nX\nb\nc\n".data := by
  decide

/-- Two edits are non-overlapping when their inclusive 1-indexed line
ranges are disjoint. -/
def EditsDisjoint (e1 e2 : FileEdit) : Prop :=
  e1.end_line < e2.start_line ∨ e2.end_line < e1.start_line

instance : DecidableRel EditsDisjoint := fun e1 e2 =>
  inferInstanceAs (Decidable (e1.end_line < e2.start_line ∨ e2.end_line < e1.start_line))

/-- The strict version of the `apply_edits` sort order, used to show the
stable sort has a unique result on start-line-distinct batches. -/
def editGT (e1 e2 : FileEdit) : Prop :=
  e2.start_line < e1.start_line ∨ e1 = e2

theorem insertionSort_eq_of_perm_distinct {l1 l2 : List FileEdit}
    (hperm : l1.Perm l2)
    (hdistinct : l1.Pairwise fun a b => a.start_line ≠ b.start_line) :
    l1.insertionSort editGE = l2.insertionSort editGE := by
  haveI htot : IsTotal FileEdit editGE := ⟨fun a b => le_total b.start_line a.start_line⟩
  haveI htrans : IsTrans FileEdit editGE := ⟨fun a b c h1 h2 => le_trans h2 h1⟩
  haveI hanti : IsAntisymm FileEdit editGT := by
    refine ⟨fun a b h1 h2 => ?_⟩
    rcases h1 with h1 | h1
    · rcases h2 with h2 | h2
      · exact absurd (lt_trans h1 h2) (lt_irrefl _)
      · exact h2.symm
    · exact h1
  have hsymm : ∀ {x y : FileEdit},
      (fun a b : FileEdit => a.start_line ≠ b.start_line) x y →
      (fun a b : FileEdit => a.start_line ≠ b.start_line) y x :=
    fun h => Ne.symm h
  have p1 : (l1.insertionSort editGE).Perm l1 := List.perm_insertionSort _ _
  have p2 : (l2.insertionSort editGE).Perm l2 := List.perm_insertionSort _ _
  have hd1 : (l1.insertionSort editGE).Pairwise
      fun a b => a.start_line ≠ b.start_line :=
    (p1.pairwise_iff hsymm).mpr hdistinct
  have hd2 : (l2.insertionSort editGE).Pairwise
      fun a b => a.start_line ≠ b.start_line :=
    (p2.pairwise_iff hsymm).mpr ((hperm.pairwise_iff hsymm).mp hdistinct)
  have s1 : List.Sorted editGE (l1.insertionSort editGE) :=
    List.sorted_insertionSort _ _
  have s2 : List.Sorted editGE (l2.insertionSort editGE) :=
    List.sorted_insertionSort _ _
  have strict : ∀ {l : List FileEdit}, List.Sorted editGE l →
      (l.Pairwise fun a b => a.start_line ≠ b.start_line) →
      List.Sorted editGT l := by
    intro l hs hd
    exact (hs.and hd).imp fun h => Or.inl (lt_of_le_of_ne h.1 (Ne.symm h.2))
  have e12 : (l1.insertionSort editGE).Perm (l2.insertionSort editGE) :=
    p1.trans (hperm.trans p2.symm)
  exact List.eq_of_perm_of_sorted e12 (strict s1 hd1) (strict s2 hd2)

/-- Claim C9 (amended).  Multi-edit order independence: for every file and
every pair of submission orders of the same batch of edits, `apply_edits`
produces the same final content **provided no two edits in the batch
share a start-line** (pairwise non-overlapping edits with nonempty
ranges always have distinct start-lines, but degenerate insertion edits
with `start-line = end-line + 1` can share one, and then the stable sort
preserves submission order between them). -/
theorem applyEdits_order_independent (file : List Char)
    (l1 l2 : List FileEdit) (hperm : l1.Perm l2)
    (hdistinct : l1.Pairwise fun a b => a.start_line ≠ b.start_line) :
    applyEdits file l1 = applyEdits file l2 := by
  have hsort := insertionSort_eq_of_perm_distinct hperm hdistinct
  have hnil : (l1 = []) ↔ (l2 = []) := by
    constructor
    · intro h; subst h; exact hperm.nil_eq.symm
    · intro h; subst h; exact hperm.symm.nil_eq.symm
  by_cases h1 : l1 = []
  · have h2 : l2 = [] := hnil.mp h1
    subst h1; subst h2; rfl
  · have h2 : l2 ≠ [] := fun h => h1 (hnil.mpr h)
    simp only [applyEdits, h1, h2, if_false, hsort]

/-- Witness for `applyEdits_order_independent`: spec scenario B — the
batch `[(7,7,"SEVEN"), (3,3,"THREE")]` against a ten-line file gives the
same content as the reversed submission order. -/
theorem applyEdits_order_independent_witness :
    applyEdits "1\n2\n3\n4\n5\n6\n7\n8\n9\n10\n".data
        [⟨7, 7, "SEVEN".data⟩, ⟨3, 3, "THREE".data⟩] =
      applyEdits "1\n2\n3\n4\n5\n6\n7\n8\n9\n10\n".data
        [⟨3, 3, "THREE".data⟩, ⟨7, 7, "SEVEN".data⟩] :=
  applyEdits_order_independent "1\n2\n3\n4\n5\n6\n7\n8\n9\n10\n".data
    [⟨7, 7, "SEVEN".data⟩, ⟨3, 3, "THREE".data⟩]
    [⟨3, 3, "THREE".data⟩, ⟨7, 7, "SEVEN".data⟩]
    (by decide) (by decide)

/-- Claim C9 counterexample.  The two degenerate insertion edits
`(2, 1, "X")` and `(2, 1, "Y")` against the file `"a\nb\n"` are pairwise
non-overlapping (their inclusive ranges are empty) and both validate
against the pre-batch snapshot, yet the two submission orders produce
different final contents (`"a\nY\nX\nb\n"` vs `"a\nX\nY\nb\n"`): the
claim as stated is false. -/
theorem applyEdits_C9_counterexample :
    ([⟨2, 1, "X".data⟩, ⟨2, 1, "Y".data⟩] : List FileEdit).Perm
        [⟨2, 1, "Y".data⟩, ⟨2, 1, "X".data⟩] ∧
    ([⟨2, 1, "X".data⟩, ⟨2, 1, "Y".data⟩] : List FileEdit).Pairwise EditsDisjoint ∧
    (([⟨2, 1, "X".data⟩, ⟨2, 1, "Y".data⟩] : List FileEdit).all
      (editValid (splitLinesKeep "a\nb\n".data).length)) = true ∧
    applyEdits "a\nb\n".data [⟨2, 1, "X".data⟩, ⟨2, 1, "Y".data⟩] =
      some "a\nY\nX\nb\n".data ∧
    applyEdits "a\nb\n".data [⟨2, 1, "Y".data⟩, ⟨2, 1, "X".data⟩] =
      some "a\nX\nY\nb\n".data ∧
    ¬ applyEdits "a\nb\n".data [⟨2, 1, "X".data⟩, ⟨2, 1, "Y".data⟩] =
        applyEdits "a\nb\n".data [⟨2, 1, "Y".data⟩, ⟨2, 1, "X".data⟩] := by
  decide

/-! Facts about the Python strip operations needed to analyse the
extension test of `write_file` (which runs on `.strip()`-ed text). -/

theorem pyRstrip_eq_self {s : List Char}
    (h : ∀ c, s.getLast? = some c → isPyWS c = false) : pyRstrip s = s := by
  unfold pyRstrip
  cases hr : s.reverse with
  | nil =>
    have : s = [] := by simpa using congrArg List.reverse hr
    subst this; rfl
  | cons c t =>
    have hlast : s.getLast? = some c := by
      rw [← List.head?_reverse, hr]; rfl
    rw [List.dropWhile_cons, h c hlast]
    simp only [Bool.false_eq_true, if_false]
    rw [← hr, List.reverse_reverse]

theorem dropWhile_head_false {α : Type} (p : α → Bool) :
    ∀ (l : List α) (c : α) (t : List α), l.dropWhile p = c :: t → p c = false := by
  intro l
  induction l with
  | nil => intro c t h; simp at h
  | cons a l2 ih =>
    intro c t h
    cases hpa : p a with
    | true =>
      rw [List.dropWhile_cons, hpa] at h
      simp only [if_true] at h
      exact ih c t h
    | false =>
      rw [List.dropWhile_cons, hpa] at h
      simp only [Bool.false_eq_true, if_false] at h
      injection h with h1 h2
      rw [← h1]
      exact hpa

theorem pyRstrip_getLast {s : List Char} (h : pyRstrip s ≠ []) :
    ∃ c, (pyRstrip s).getLast? = some c ∧ isPyWS c = false := by
  unfold pyRstrip at h ⊢
  cases hd : s.reverse.dropWhile isPyWS with
  | nil => rw [hd] at h; simp at h
  | cons c t =>
    refine ⟨c, ?_, ?_⟩
    · rw [List.getLast?_reverse]; rfl
    · exact dropWhile_head_false isPyWS s.reverse c t hd

theorem getLast?_of_suffix {s t : List Char} (h : s <:+ t) (hne : s ≠ []) :
    t.getLast? = s.getLast? := by
  obtain ⟨pre, rfl⟩ := h
  rw [List.getLast?_append]
  cases hl : s.getLast? with
  | none => exact absurd (List.getLast?_eq_none_iff.mp hl) hne
  | some c => rfl

theorem pyRstrip_pyStrip (s : List Char) : pyRstrip (pyStrip s) = pyStrip s := by
  unfold pyStrip
  apply pyRstrip_eq_self
  intro c hc
  have hne : pyLstrip (pyRstrip s) ≠ [] := by
    intro h0; rw [h0] at hc; simp at hc
  have hsuf : pyLstrip (pyRstrip s) <:+ pyRstrip s := List.dropWhile_suffix _
  have hrne : pyRstrip s ≠ [] := by
    intro h0
    apply hne
    rw [h0]
    rfl
  obtain ⟨c2, hc2, hws⟩ := pyRstrip_getLast hrne
  have : (pyRstrip s).getLast? = (pyLstrip (pyRstrip s)).getLast? :=
    getLast?_of_suffix hsuf hne
  rw [hc, hc2] at this
  obtain rfl : c2 = c := by injection this
  exact hws

/-! The `write_file` tool from `tools/file_system.py`.  The tool reads
the existing file (if any), strips both texts, and then:
case 1 (extension): if the stripped new content strictly extends the
stripped existing content, it appends the stripped remainder to the file
(newline-separated) — a write; case 2: byte-identical stripped text is
an informational no-op; cases 3 and 4: everything else is blocked — no
write, and the returned message starts with the sentinel
`🚫 BLOQUEIO:` and enumerates the remediation tools.  Python computes
`additional_content` inside case 1 and falls through when it is empty;
computing it before the branch (it is never consulted otherwise) is
equivalent. -/

/-- The blocking sentinel emitted by `write_file` and scanned for by the
auto-replan detector of `execute_task` (`"🚫 BLOQUEIO:"` in the source;
the specification writes it generically as `🚫 BLOCK:`). -/
def sentinelBloqueio : List Char := "🚫 BLOQUEIO:".data

/-- Result of one `write_file` call: the contents of the target file
after the call, and the tool-result string. -/
structure WriteFileResult where
  contents : List Char
  message : List Char
deriving DecidableEq

def writeCreatedMsg (fp : List Char) : List Char :=
  "✓ Arquivo ".data ++ fp ++ " CRIADO com sucesso.".data

def writeAdaptedMsg (fp : List Char) : List Char :=
  "✓ Arquivo ".data ++ fp ++
    " ADAPTADO: conteúdo adicional adicionado ao final. Backup criado.".data

def writeIdenticalMsg (fp : List Char) : List Char :=
  "ℹ️ Arquivo ".data ++ fp ++
    " já contém exatamente o conteúdo solicitado. Nenhuma mudança necessária.".data

/-- The remediation enumeration of blocking case 3 (small change). -/
def blockToolsSimilar : List Char :=
  ("⚠️ write_file é para CRIAR arquivos NOVOS. Este arquivo já existe!\n\n" ++
   "✅ USE UMA DESTAS FERRAMENTAS:\n\n" ++
   "  📝 update_file → Substitui o conteúdo mantendo backup\n\n" ++
   "  ➕ ensure_lines → Adiciona só o que falta\n\n" ++
   "  ✏️ edit_lines → Edita linhas específicas\n\n" ++
   "  🔍 search_replace → Substitui texto específico\n\n").data

/-- The remediation enumeration of blocking case 4 (large change). -/
def blockToolsDifferent : List Char :=
  ("⚠️ write_file é para CRIAR arquivos NOVOS. Este arquivo já existe!\n\n" ++
   "✅ USE UMA DESTAS FERRAMENTAS DE EDIÇÃO:\n\n" ++
   "  📝 update_file → Substitui o conteúdo do arquivo existente. Cria backup automático\n\n" ++
   "  ➕ ensure_lines → Adiciona APENAS linhas que faltam\n\n" ++
   "  ✏️ edit_lines → Edita linhas específicas\n\n" ++
   "  ➕ insert_lines → Insere após uma linha específica\n\n").data

def blockSimilarMsg (fp : List Char) (existingLines : List (List Char)) :
    List Char :=
  sentinelBloqueio ++
    (" Arquivo \x27".data ++ fp ++ "\x27 JÁ EXISTE com conteúdo similar.\n\n".data ++
     blockToolsSimilar ++
     "📝 Conteúdo atual:\n".data ++ (existingLines.take 10).flatten)

def blockDifferentMsg (fp : List Char) (existingLines : List (List Char)) :
    List Char :=
  sentinelBloqueio ++
    (" Arquivo \x27".data ++ fp ++ "\x27 JÁ EXISTE com conteúdo diferente.\n\n".data ++
     blockToolsDifferent ++
     "📝 Conteúdo atual do arquivo:\n".data ++ (existingLines.take 15).flatten)

/-- `len(set(new_lines).symmetric_difference(set(existing_lines)))`. -/
def symmDiffCount (xs ys : List (List Char)) : Nat :=
  (xs.dedup.filter (fun l => !(ys.contains l))).length +
    (ys.dedup.filter (fun l => !(xs.contains l))).length

/-- Contents written by the adaptation branch: append the additional
text, separating and terminating with newlines as the code does. -/
def adaptedContents (e additional : List Char) : List Char :=
  e ++ (if endsNL e then [] else ['\n']) ++ additional ++
    (if endsNL additional then [] else ['\n'])

/-- `write_file(filepath, content)` from `tools/file_system.py`, as a
function of the current state of the target file (`none` = absent). -/
def writeFileTool (fp : List Char) (existing : Option (List Char))
    (content : List Char) : WriteFileResult :=
  match existing with
  | none => ⟨content, writeCreatedMsg fp⟩
  | some e =>
    let existingText := pyStrip e
    let newText := pyStrip content
    let existingClean := pyRstrip existingText
    let newClean := pyRstrip newText
    let additional := pyStrip (newClean.drop existingClean.length)
    if existingClean.isPrefixOf newClean ∧
        existingClean.length < newClean.length ∧ additional ≠ [] then
      ⟨adaptedContents e additional, writeAdaptedMsg fp⟩
    else if existingText = newText then
      ⟨e, writeIdenticalMsg fp⟩
    else
      let existingLines := splitLinesKeep e
      let newLines := splitLinesKeep content
      if symmDiffCount existingLines newLines ≤ 3 ∧
          max existingLines.length newLines.length > 5 then
        ⟨e, blockSimilarMsg fp existingLines⟩
      else
        ⟨e, blockDifferentMsg fp existingLines⟩

theorem sentinel_prefix_blockSimilarMsg (fp : List Char)
    (lines : List (List Char)) : sentinelBloqueio <+: blockSimilarMsg fp lines :=
  ⟨_, rfl⟩

theorem sentinel_prefix_blockDifferentMsg (fp : List Char)
    (lines : List (List Char)) : sentinelBloqueio <+: blockDifferentMsg fp lines :=
  ⟨_, rfl⟩

theorem blockToolsSimilar_infix_msg (fp : List Char) (lines : List (List Char)) :
    blockToolsSimilar <:+: blockSimilarMsg fp lines := by
  refine ⟨sentinelBloqueio ++ (" Arquivo \x27".data ++ fp ++
    "\x27 JÁ EXISTE com conteúdo similar.\n\n".data),
    "📝 Conteúdo atual:\n".data ++ (lines.take 10).flatten, ?_⟩
  simp [blockSimilarMsg, List.append_assoc]

theorem blockToolsDifferent_infix_msg (fp : List Char) (lines : List (List Char)) :
    blockToolsDifferent <:+: blockDifferentMsg fp lines := by
  refine ⟨sentinelBloqueio ++ (" Arquivo \x27".data ++ fp ++
    "\x27 JÁ EXISTE com conteúdo diferente.\n\n".data),
    "📝 Conteúdo atual do arquivo:\n".data ++ (lines.take 15).flatten, ?_⟩
  simp [blockDifferentMsg, List.append_assoc]

set_option maxRecDepth 8000 in
/-- Claim C5 (amended).  Protected create: `write_file` compares the
`.strip()`-ed texts, not the raw bytes.  For every existing file whose
**stripped** contents differ from the **stripped** requested content and
are not a prefix of it, the tool does not write (the contents after the
call equal the contents before) and returns a message whose first
characters are the blocking sentinel `🚫 BLOQUEIO:` and which names the
remediation tools `update_file`, `ensure_lines` and `edit_lines`. -/
theorem writeFile_blocks (fp e content : List Char)
    (hdiff : pyStrip e ≠ pyStrip content)
    (hnp : ¬ pyStrip e <+: pyStrip content) :
    (writeFileTool fp (some e) content).contents = e ∧
    sentinelBloqueio <+: (writeFileTool fp (some e) content).message ∧
    "update_file".data <:+: (writeFileTool fp (some e) content).message ∧
    "ensure_lines".data <:+: (writeFileTool fp (some e) content).message ∧
    "edit_lines".data <:+: (writeFileTool fp (some e) content).message := by
  have hce : pyRstrip (pyStrip e) = pyStrip e := pyRstrip_pyStrip e
  have hcc : pyRstrip (pyStrip content) = pyStrip content := pyRstrip_pyStrip content
  have hcond1 : ¬((pyRstrip (pyStrip e)).isPrefixOf (pyRstrip (pyStrip content)) ∧
      (pyRstrip (pyStrip e)).length < (pyRstrip (pyStrip content)).length ∧
      pyStrip ((pyRstrip (pyStrip content)).drop
        (pyRstrip (pyStrip e)).length) ≠ []) := by
    rw [hce, hcc]
    rintro ⟨hp, -, -⟩
    exact hnp (List.isPrefixOf_iff_prefix.mp hp)
  simp only [writeFileTool]
  rw [if_neg hcond1, if_neg hdiff]
  by_cases hd : symmDiffCount (splitLinesKeep e) (splitLinesKeep content) ≤ 3 ∧
      max (splitLinesKeep e).length (splitLinesKeep content).length > 5
  · rw [if_pos hd]
    refine ⟨rfl, sentinel_prefix_blockSimilarMsg fp _, ?_, ?_, ?_⟩
    · exact List.IsInfix.trans (by decide) (blockToolsSimilar_infix_msg fp _)
    · exact List.IsInfix.trans (by decide) (blockToolsSimilar_infix_msg fp _)
    · exact List.IsInfix.trans (by decide) (blockToolsSimilar_infix_msg fp _)
  · rw [if_neg hd]
    refine ⟨rfl, sentinel_prefix_blockDifferentMsg fp _, ?_, ?_, ?_⟩
    · exact List.IsInfix.trans (by decide) (blockToolsDifferent_infix_msg fp _)
    · exact List.IsInfix.trans (by decide) (blockToolsDifferent_infix_msg fp _)
    · exact List.IsInfix.trans (by decide) (blockToolsDifferent_infix_msg fp _)

/-- Witness for `writeFile_blocks`: writing `"y = 2\n"` over an existing
file containing `"x = 1\n"` is blocked. -/
theorem writeFile_blocks_witness :
    (writeFileTool "main.py".data (some "x = 1\n".data) "y = 2\n".data).contents
        = "x = 1\n".data ∧
    sentinelBloqueio <+:
      (writeFileTool "main.py".data (some "x = 1\n".data) "y = 2\n".data).message ∧
    "update_file".data <:+:
      (writeFileTool "main.py".data (some "x = 1\n".data) "y = 2\n".data).message ∧
    "ensure_lines".data <:+:
      (writeFileTool "main.py".data (some "x = 1\n".data) "y = 2\n".data).message ∧
    "edit_lines".data <:+:
      (writeFileTool "main.py".data (some "x = 1\n".data) "y = 2\n".data).message :=
  writeFile_blocks "main.py".data "x = 1\n".data "y = 2\n".data
    (by decide) (by decide)

/-- Claim C5 counterexample.  The existing file `"abc\n\n"` differs from
the requested content `"abc\ndef"` and is not a (byte) prefix of it, so
the claim requires a block with no write; but `write_file` strips both
sides before the extension test, takes the adaptation branch, and writes
the file, changing its contents to `"abc\n\ndef\n"`. -/
theorem writeFile_C5_counterexample :
    "abc\n\n".data ≠ "abc\ndef".data ∧
    ¬ "abc\n\n".data <+: "abc\ndef".data ∧
    (writeFileTool "f.txt".data (some "abc\n\n".data) "abc\ndef".data).contents
      = "abc\n\ndef\n".data ∧
    ¬ (writeFileTool "f.txt".data (some "abc\n\n".data) "abc\ndef".data).contents
      = "abc\n\n".data := by
  decide

/-! Shell tool `run_command` from `tools/shell.py`.  The denylist check
is `any(d in command for d in dangerous_commands)` — plain substring
containment on the raw command string; when it fires the tool returns a
rejection string before any `subprocess.run`.  The blocking-command
check then works on `command.lower()` and either warns (no child
process) or spawns the child. -/

/-- Substring containment, Python `in` on `str`. -/
def containsSub (pat s : List Char) : Bool := decide (pat <:+: s)

def dangerousCommands : List (List Char) :=
  ["rm -rf".data, "mkfs".data, "dd".data, ":()\x7b:|:&\x7d;:".data,
   "fork bomb".data, ">(".data, "/dev/sda".data, "mv / ".data,
   "chmod -R 777 /".data, "> /dev/sda".data]

def blockingCommands : List (List Char) :=
  ["uvicorn".data, "gunicorn".data, "python -m http.server".data,
   "flask run".data, "django runserver".data, "npm start".data,
   "npm run dev".data, "yarn start".data, "yarn dev".data,
   "python app.py".data, "python main.py".data, "node server.js".data,
   "node app.js".data, "rails server".data, "rails s".data, "php -S".data,
   "php artisan serve".data, "jupyter notebook".data, "jupyter lab".data,
   "streamlit run".data, "gradle run".data, "mvn spring-boot:run".data]

def dangerousRejectionMsg : List Char :=
  "✗ BLOQUEADO: Comando potencialmente perigoso detectado.".data

def warnBlockingMsg : List Char :=
  "⚠️ AVISO: Este comando pode travar o processo!".data

/-- What `run_command` does with a command string: reject it, warn about
it, or hand it to `subprocess.run` (optionally as a sanctioned
background server launch). -/
inductive ShellOutcome where
  | rejectedDangerous (msg : List Char)
  | warnedBlocking (msg : List Char)
  | spawned (background : Bool)
deriving DecidableEq

/-- `run_command(command)` from `tools/shell.py` (decision structure;
the `subprocess.run` output itself is outside the embedding). -/
def runCommand (command : List Char) : ShellOutcome :=
  if dangerousCommands.any (fun d => containsSub d command) then
    .rejectedDangerous dangerousRejectionMsg
  else
    let commandLower := command.map Char.toLower
    let isBlocking := blockingCommands.any (fun b => containsSub b commandLower)
    let hasNohup := containsSub "nohup".data commandLower
    let hasBackground := command.contains '&'
    let hasPidSave := containsSub "echo $!".data command &&
      containsSub ".pid".data command
    if isBlocking && hasNohup && hasBackground && hasPidSave then
      .spawned true
    else if isBlocking && !(hasNohup && hasBackground && hasPidSave) then
      .warnedBlocking warnBlockingMsg
    else
      .spawned false

/-- Claim C10.  The shell denylist matches by plain substring
containment: every command string containing any denylist entry as a
substring is answered with the rejection string, and no child process is
spawned. -/
theorem runCommand_denylist_substring (command : List Char)
    (h : ∃ d ∈ dangerousCommands, d <:+: command) :
    runCommand command = .rejectedDangerous dangerousRejectionMsg ∧
    ∀ bg, runCommand command ≠ .spawned bg := by
  obtain ⟨d, hd, hsub⟩ := h
  have hany : dangerousCommands.any (fun d => containsSub d command) = true := by
    rw [List.any_eq_true]
    exact ⟨d, hd, decide_eq_true hsub⟩
  have heq : runCommand command = .rejectedDangerous dangerousRejectionMsg := by
    unfold runCommand
    rw [if_pos hany]
  exact ⟨heq, fun bg hbg => by rw [heq] at hbg; exact ShellOutcome.noConfusion hbg⟩

/-- Witness for `runCommand_denylist_substring`: the benign command
`git add .` contains the denylist entry `dd` as a substring and is
rejected. -/
theorem runCommand_denylist_witness :
    "dd".data ∈ dangerousCommands ∧ "dd".data <:+: "git add .".data ∧
    runCommand "git add .".data = .rejectedDangerous dangerousRejectionMsg ∧
    ∀ bg, runCommand "git add .".data ≠ .spawned bg :=
  ⟨by decide, by decide,
   (runCommand_denylist_substring "git add .".data
     ⟨"dd".data, by decide, by decide⟩).1,
   (runCommand_denylist_substring "git add .".data
     ⟨"dd".data, by decide, by decide⟩).2⟩

/-! Path handling.  Both `CodeAgent` (`code_agent.py`) and the tool
handlers (`file_system.py`) compute `file_path = workspace / filepath`
with `pathlib` and use the result directly: there is no check anywhere
that the joined path stays inside the workspace or outside the backups
directory.  A `pathlib` join with an absolute right operand discards the
left operand; `..` components survive the join and are resolved by the
operating system when the file is opened. -/

/-- A `pathlib`-style path: absolute flag plus components (which may
include `..` and `.`). -/
structure PyPath where
  absolute : Bool
  segs : List (List Char)
deriving DecidableEq

/-- `pathlib` join `w / p`. -/
def joinPath (w p : PyPath) : PyPath :=
  if p.absolute then p else ⟨w.absolute, w.segs ++ p.segs⟩

def dotdotSeg : List Char := "..".data

def dotSeg : List Char := ".".data

/-- Lexical resolution of `..` and `.` components, as the operating
system performs it on the path the editor hands to `open` (the
workspace itself is stored pre-resolved via `Path(workspace).resolve()`). -/
def resolveSegs (l : List (List Char)) : List (List Char) :=
  l.foldl (fun acc s =>
    if s = dotdotSeg then acc.dropLast
    else if s = dotSeg then acc else acc ++ [s]) []

def backupsDirName : List Char := ".code_agent_backups".data

/-- `CodeAgent.read_file(filepath)` from `code_agent.py`:
`file_path = self.workspace / filepath`; raise `FileNotFoundError` when
the target does not exist, otherwise return its contents.  The
filesystem is modelled as a map from resolved component lists to file
contents.  Note the absence of any containment check. -/
def readFile (fs : List (List Char) → Option (List Char)) (workspace : PyPath)
    (filepath : PyPath) : Except (List Char) (List Char) :=
  let target := resolveSegs (joinPath workspace filepath).segs
  match fs target with
  | none => .error "Arquivo não encontrado".data
  | some contents => .ok contents

theorem resolveSegs_noDots_append (l : List (List Char)) :
    ∀ acc : List (List Char), (∀ s ∈ l, s ≠ dotdotSeg ∧ s ≠ dotSeg) →
      List.foldl (fun acc s =>
        if s = dotdotSeg then acc.dropLast
        else if s = dotSeg then acc else acc ++ [s]) acc l = acc ++ l := by
  induction l with
  | nil => intro acc _; simp
  | cons s l2 ih =>
    intro acc h
    have hs := h s (List.mem_cons_self _ _)
    rw [List.foldl_cons]
    rw [if_neg hs.1, if_neg hs.2]
    rw [ih (acc ++ [s]) (fun x hx => h x (List.mem_cons_of_mem _ hx))]
    simp

/-- Claim C1 (amended).  Paths are interpreted by joining under `W` with
no containment check: a relative path free of `..` and `.` components
always resolves to a location under `W` (the only confinement the code
provides), and `read_file` returns the contents of whatever location the
join names — including, as the counterexample shows, locations outside
`W` and inside the backups subdirectory, which are never rejected. -/
theorem readFile_path_resolution (workspace filepath : PyPath)
    (fs : List (List Char) → Option (List Char))
    (hrel : filepath.absolute = false)
    (hw : ∀ s ∈ workspace.segs, s ≠ dotdotSeg ∧ s ≠ dotSeg)
    (hp : ∀ s ∈ filepath.segs, s ≠ dotdotSeg ∧ s ≠ dotSeg) :
    resolveSegs (joinPath workspace filepath).segs =
      workspace.segs ++ filepath.segs ∧
    workspace.segs <+: resolveSegs (joinPath workspace filepath).segs ∧
    ∀ c, fs (workspace.segs ++ filepath.segs) = some c →
      readFile fs workspace filepath = .ok c := by
  have hjoin : joinPath workspace filepath = ⟨workspace.absolute,
      workspace.segs ++ filepath.segs⟩ := by
    unfold joinPath
    rw [if_neg (by rw [hrel]; exact Bool.false_ne_true)]
  have hres : resolveSegs (joinPath workspace filepath).segs =
      workspace.segs ++ filepath.segs := by
    rw [hjoin]
    unfold resolveSegs
    have hall : ∀ s ∈ workspace.segs ++ filepath.segs,
        s ≠ dotdotSeg ∧ s ≠ dotSeg := by
      intro s hs
      rcases List.mem_append.mp hs with h | h
      · exact hw s h
      · exact hp s h
    simpa using resolveSegs_noDots_append (workspace.segs ++ filepath.segs) [] hall
  refine ⟨hres, ⟨filepath.segs, hres.symm⟩, ?_⟩
  intro c hc
  unfold readFile
  rw [hres]
  show (match fs (workspace.segs ++ filepath.segs) with
        | none => Except.error "Arquivo não encontrado".data
        | some contents => Except.ok contents) = Except.ok c
  rw [hc]

/-- Witness for `readFile_path_resolution`: reading `src/main.py` under
workspace `/home/user/ws` resolves to `/home/user/ws/src/main.py` and
returns its contents. -/
theorem readFile_path_resolution_witness :
    resolveSegs (joinPath ⟨true, ["home".data, "user".data, "ws".data]⟩
        ⟨false, ["src".data, "main.py".data]⟩).segs =
      ["home".data, "user".data, "ws".data] ++ ["src".data, "main.py".data] ∧
    ["home".data, "user".data, "ws".data] <+:
      resolveSegs (joinPath ⟨true, ["home".data, "user".data, "ws".data]⟩
        ⟨false, ["src".data, "main.py".data]⟩).segs ∧
    ∀ c, (fun t => if t = ["home".data, "user".data, "ws".data,
            "src".data, "main.py".data] then some "pass\n".data else none)
        (["home".data, "user".data, "ws".data] ++ ["src".data, "main.py".data])
        = some c →
      readFile (fun t => if t = ["home".data, "user".data, "ws".data,
            "src".data, "main.py".data] then some "pass\n".data else none)
        ⟨true, ["home".data, "user".data, "ws".data]⟩
        ⟨false, ["src".data, "main.py".data]⟩ = .ok c := by
  exact readFile_path_resolution
    ⟨true, ["home".data, "user".data, "ws".data]⟩
    ⟨false, ["src".data, "main.py".data]⟩
    (fun t => if t = ["home".data, "user".data, "ws".data,
        "src".data, "main.py".data] then some "pass\n".data else none)
    rfl (by decide) (by decide)

/-- Claim C1 counterexample.  With workspace `/home/user/ws`, the
relative path `../secret` resolves to `/home/user/secret` — outside the
workspace — and `read_file` happily returns its contents instead of
rejecting the path; likewise a path into the backups subdirectory
`.code_agent_backups` is read, not rejected. -/
theorem readFile_C1_counterexample :
    readFile
        (fun t => if t = ["home".data, "user".data, "secret".data]
          then some "TOP-SECRET".data
          else if t = ["home".data, "user".data, "ws".data, backupsDirName,
              "f.backup".data] then some "OLD-BACKUP".data else none)
        ⟨true, ["home".data, "user".data, "ws".data]⟩
        ⟨false, [dotdotSeg, "secret".data]⟩ = .ok "TOP-SECRET".data ∧
    ¬ ["home".data, "user".data, "ws".data] <+:
        resolveSegs (joinPath ⟨true, ["home".data, "user".data, "ws".data]⟩
          ⟨false, [dotdotSeg, "secret".data]⟩).segs ∧
    readFile
        (fun t => if t = ["home".data, "user".data, "secret".data]
          then some "TOP-SECRET".data
          else if t = ["home".data, "user".data, "ws".data, backupsDirName,
              "f.backup".data] then some "OLD-BACKUP".data else none)
        ⟨true, ["home".data, "user".data, "ws".data]⟩
        ⟨false, [backupsDirName, "f.backup".data]⟩ = .ok "OLD-BACKUP".data := by
  refine ⟨rfl, by decide, rfl⟩

/-! Tool dispatch inside `execute_task` (modern_ai_agent.py, the body of
`for tool_call in tool_calls`).  The code runs
`tool_args = json.loads(tool_call.function.arguments)` **before** the
`try:` block; the `try` covers only the registry lookup and the handler
invocation.  A `json.JSONDecodeError` therefore propagates out of
`execute_task` uncaught, aborting the task, while an unknown tool or a
raising handler is reified into a `✗ …` tool-result string and the loop
continues. -/

/-- Outcome of `json.loads` on the argument string of a tool call: a
parsed argument bag (key/value pairs) or a parse error (the JSON parser
itself is outside the embedded fragment; only which branch is taken
matters). -/
inductive ToolArguments where
  | json (bag : List (List Char × List Char))
  | invalid (detail : List Char)
deriving DecidableEq

/-- One tool call of an assistant turn. -/
structure ToolCall where
  id : Nat
  name : List Char
  arguments : ToolArguments

/-- A handler returns a string result or raises; the dispatcher catches
the latter. -/
inductive HandlerOutcome where
  | ok (s : List Char)
  | exn (e : List Char)

/-- The `tools_registry` mapping: name to bound handler. -/
def ToolRegistry : Type :=
  List (List Char × (List (List Char × List Char) → HandlerOutcome))

def lookupTool (reg : ToolRegistry) (name : List Char) :
    Option (List (List Char × List Char) → HandlerOutcome) :=
  (reg.find? (fun p => p.1 == name)).map Prod.snd

/-- A tool-result transcript entry (`{"role": "tool", "tool_call_id": …,
"content": …}`). -/
structure ToolMessage where
  tool_call_id : Nat
  content : List Char
deriving DecidableEq

/-- Processing of one tool call by `execute_task`: parse the arguments
(outside any `try`), then look up and invoke the handler (inside
`try`/`except`).  `Except.error` models an exception escaping
`execute_task`. -/
def processToolCall (reg : ToolRegistry) (tc : ToolCall) :
    Except (List Char) (List Char) :=
  match tc.arguments with
  | .invalid detail =>
    .error ("json.decoder.JSONDecodeError: ".data ++ detail)
  | .json bag =>
    .ok (match lookupTool reg tc.name with
      | some handler =>
        match handler bag with
        | .ok s => s
        | .exn e => "✗ Erro ao executar ".data ++ tc.name ++ ": ".data ++ e
      | none =>
        "✗ Ferramenta \x27".data ++ tc.name ++ "\x27 não encontrada".data)

/-- The loop over the tool calls of one assistant turn, appending one
tool message per processed call; an uncaught exception aborts the whole
turn (and the task). -/
def processToolCalls (reg : ToolRegistry) :
    List ToolCall → List ToolMessage → Except (List Char) (List ToolMessage)
  | [], msgs => .ok msgs
  | tc :: rest, msgs =>
    match processToolCall reg tc with
    | .error e => .error e
    | .ok r => processToolCalls reg rest (msgs ++ [⟨tc.id, r⟩])

/-- Claim C2 (amended).  Malformed tool-call arguments are **fatal**, not
recovered: `json.loads` runs outside the `try`/`except`, so a tool call
whose argument string does not parse raises an exception that aborts
`execute_task`; no `❌ invalid arguments` tool-result exists.  Tool calls
whose arguments do parse always produce a tool-result string and let the
loop continue — even for unknown tools or raising handlers. -/
theorem toolCall_malformed_fatal (reg : ToolRegistry) (tc : ToolCall) :
    (∀ bag, tc.arguments = .json bag → ∃ s, processToolCall reg tc = .ok s) ∧
    (∀ detail, tc.arguments = .invalid detail →
      processToolCall reg tc =
        .error ("json.decoder.JSONDecodeError: ".data ++ detail)) ∧
    (∀ detail rest msgs, tc.arguments = .invalid detail →
      processToolCalls reg (tc :: rest) msgs =
        .error ("json.decoder.JSONDecodeError: ".data ++ detail)) := by
  refine ⟨?_, ?_, ?_⟩
  · intro bag hbag
    exact ⟨_, by unfold processToolCall; rw [hbag]⟩
  · intro detail hdet
    unfold processToolCall
    rw [hdet]
  · intro detail rest msgs hdet
    have h1 : processToolCall reg tc =
        .error ("json.decoder.JSONDecodeError: ".data ++ detail) := by
      unfold processToolCall
      rw [hdet]
    unfold processToolCalls
    rw [h1]

/-- Witness for `toolCall_malformed_fatal`, at a registry holding one
tool and both a well-formed and a malformed call. -/
theorem toolCall_malformed_fatal_witness :
    (∀ bag, (ToolCall.mk 2 "write_file".data
        (.invalid "Expecting value: line 1 column 1".data)).arguments =
        .json bag →
      ∃ s, processToolCall [("list_files".data, fun _ => .ok "✓ ok".data)]
        ⟨2, "write_file".data,
         .invalid "Expecting value: line 1 column 1".data⟩ = .ok s) ∧
    (∀ detail, (ToolCall.mk 2 "write_file".data
        (.invalid "Expecting value: line 1 column 1".data)).arguments =
        .invalid detail →
      processToolCall [("list_files".data, fun _ => .ok "✓ ok".data)]
        ⟨2, "write_file".data,
         .invalid "Expecting value: line 1 column 1".data⟩ =
        .error ("json.decoder.JSONDecodeError: ".data ++ detail)) ∧
    (∀ detail rest msgs, (ToolCall.mk 2 "write_file".data
        (.invalid "Expecting value: line 1 column 1".data)).arguments =
        .invalid detail →
      processToolCalls [("list_files".data, fun _ => .ok "✓ ok".data)]
        (⟨2, "write_file".data,
          .invalid "Expecting value: line 1 column 1".data⟩ :: rest) msgs =
        .error ("json.decoder.JSONDecodeError: ".data ++ detail)) :=
  toolCall_malformed_fatal [("list_files".data, fun _ => .ok "✓ ok".data)]
    ⟨2, "write_file".data, .invalid "Expecting value: line 1 column 1".data⟩

/-- Claim C2 counterexample.  An assistant turn whose second tool call
carries unparseable arguments: the dispatcher does not return a
tool-result string starting with `❌ invalid arguments` and continue —
the whole turn aborts with the uncaught exception, and no tool message
for the failing call is ever appended. -/
theorem toolCall_C2_counterexample :
    processToolCalls [("list_files".data, fun _ => .ok "✓ ok".data)]
      [⟨1, "list_files".data, .json []⟩,
       ⟨2, "write_file".data, .invalid "Expecting value".data⟩] [] =
      .error ("json.decoder.JSONDecodeError: ".data ++ "Expecting value".data) :=
  rfl

/-! The phase structure and iteration budget of
`ModernAIAgent.execute_task` (modern_ai_agent.py).  The per-task cap is
`max_iterations if max_iterations is not None else self.max_iterations`,
validated to `[1, 1000]` (a `ValueError` otherwise).  The optional
planning phase (`use_multi_model and not skip_planning`) issues one LLM
call before the loop; the execution loop issues one LLM call per
iteration, up to the cap, stopping early with success when a reply
carries no tool calls (an empty `tool_calls` list counts as none:
`if not tool_calls`); the optional validation phase
(`use_multi_model and not skip_validation and execution succeeded`)
issues one more call, and only on that validation path is the
`git_review` section attached to the returned result (guarded further by
`git_session_started and _is_git_repo(...)`; the session bootstrap at
the top of every task always sets `git_session_started`).  The LLM is
modelled as a stub mapping the number of previously issued loop calls to
a reply; the validator verdict parse is an oracle boolean. -/

/-- One assistant reply, as normalised by the transport: content plus
the (possibly empty) list of requested tool names. -/
structure LLMReply where
  content : List Char
  toolCalls : List (List Char)

/-- The configuration slice of `AgentConfig` that the claims mention. -/
structure AgentCfg where
  useMultiModel : Bool
  maxIterations : Nat
  isGitRepo : Bool

/-- The execution loop: `fuel` iterations remain, `calls` LLM calls made
so far; returns (success, total loop LLM calls = iterations). -/
def runLoopGo (stub : Nat → LLMReply) : Nat → Nat → Bool × Nat
  | 0, calls => (false, calls)
  | fuel + 1, calls =>
    if (stub calls).toolCalls.isEmpty then (true, calls + 1)
    else runLoopGo stub fuel (calls + 1)

/-- The observable slice of the result dict of `execute_task`:
`success`, `iterations`, and whether the optional `validation` and
`git_review` sections are present. -/
structure TaskResult where
  success : Bool
  iterations : Nat
  hasValidation : Bool
  hasGitReview : Bool
deriving DecidableEq

structure TaskOutcome where
  result : TaskResult
  llmCalls : Nat
deriving DecidableEq

/-- `execute_task(task, max_iterations=…, skip_planning=…,
skip_validation=…)`: phase structure, call counting and result
assembly.  `Except.error` models the `ValueError` raised for an
out-of-range cap. -/
def executeTask (cfg : AgentCfg) (stub : Nat → LLMReply)
    (validatorVerdict : Bool) (maxIterationsOverride : Option Nat)
    (skipPlanning skipValidation : Bool) : Except (List Char) TaskOutcome :=
  let cap := maxIterationsOverride.getD cfg.maxIterations
  if cap < 1 then .error "max_iterations deve ser pelo menos 1".data
  else if cap > 1000 then
    .error "max_iterations não deve exceder 1000".data
  else
    let planningCalls := if cfg.useMultiModel && !skipPlanning then 1 else 0
    let lo := runLoopGo stub cap 0
    if cfg.useMultiModel && !skipValidation && lo.1 then
      .ok ⟨⟨lo.1 && validatorVerdict, lo.2, true, cfg.isGitRepo⟩,
           planningCalls + lo.2 + 1⟩
    else
      .ok ⟨⟨lo.1, lo.2, false, false⟩, planningCalls + lo.2⟩

theorem runLoopGo_le (stub : Nat → LLMReply) :
    ∀ fuel calls, (runLoopGo stub fuel calls).2 ≤ calls + fuel := by
  intro fuel
  induction fuel with
  | zero => intro calls; simp [runLoopGo]
  | succ n ih =>
    intro calls
    unfold runLoopGo
    cases hx : (stub calls).toolCalls.isEmpty with
    | true =>
      simp only [hx, if_true]
      omega
    | false =>
      simp only [hx, Bool.false_eq_true, if_false]
      have := ih (calls + 1)
      omega

theorem runLoopGo_always_tools (stub : Nat → LLMReply)
    (h : ∀ i, (stub i).toolCalls ≠ []) :
    ∀ fuel calls, runLoopGo stub fuel calls = (false, calls + fuel) := by
  intro fuel
  induction fuel with
  | zero => intro calls; simp [runLoopGo]
  | succ n ih =>
    intro calls
    unfold runLoopGo
    have hne : (stub calls).toolCalls.isEmpty = false := by
      cases hx : (stub calls).toolCalls with
      | nil => exact absurd hx (h calls)
      | cons a t => rfl
    rw [hne]
    simp only [Bool.false_eq_true, if_false]
    rw [ih (calls + 1)]
    congr 1
    omega

/-- Claim C4 (amended).  Iteration bound: the execution loop issues at
most `cap` LLM calls, where `cap` is the per-task override if given,
else the configured `max_iterations`; the whole of `execute_task` issues
at most `cap + 2` (one extra call each for the optional planning and
validation phases — so the claimed bound of `cap` does not hold when
planning runs).  Without multi-model mode the total equals the loop
count; and when the model always emits tool calls the task ends with
`success = false` after exactly `cap` loop calls, the total being the
planning call (if any) plus `cap`. -/
theorem executeTask_iteration_bound (cfg : AgentCfg) (stub : Nat → LLMReply)
    (v : Bool) (ov : Option Nat) (sp sv : Bool) (out : TaskOutcome)
    (hout : executeTask cfg stub v ov sp sv = .ok out) :
    out.result.iterations ≤ ov.getD cfg.maxIterations ∧
    out.llmCalls ≤ ov.getD cfg.maxIterations + 2 ∧
    (cfg.useMultiModel = false → out.llmCalls = out.result.iterations) ∧
    ((∀ i, (stub i).toolCalls ≠ []) →
      out.result.success = false ∧
      out.result.iterations = ov.getD cfg.maxIterations ∧
      out.llmCalls = (if cfg.useMultiModel && !sp then 1 else 0) +
        ov.getD cfg.maxIterations) := by
  simp only [executeTask] at hout
  split at hout
  · exact absurd hout (by simp)
  · split at hout
    · exact absurd hout (by simp)
    · have hloop := runLoopGo_le stub (ov.getD cfg.maxIterations) 0
      split at hout
      case isTrue hcond =>
        rw [Except.ok.injEq] at hout
        subst hout
        simp only [Bool.and_eq_true] at hcond
        refine ⟨by simpa using hloop, ?_, ?_, ?_⟩
        · simp only []
          have hplan : (if cfg.useMultiModel && !sp then 1 else 0) ≤ 1 := by
            split <;> omega
          omega
        · intro hmm
          rw [hmm] at hcond
          simp at hcond
        · intro halways
          have := runLoopGo_always_tools stub halways
            (ov.getD cfg.maxIterations) 0
          rw [this] at hcond
          simp at hcond
      case isFalse hcond =>
        rw [Except.ok.injEq] at hout
        subst hout
        refine ⟨by simpa using hloop, ?_, ?_, ?_⟩
        · simp only []
          have hplan : (if cfg.useMultiModel && !sp then 1 else 0) ≤ 1 := by
            split <;> omega
          omega
        · intro hmm
          simp only [hmm, Bool.false_and, Bool.and_false]
          simp
        · intro halways
          have hrun := runLoopGo_always_tools stub halways
            (ov.getD cfg.maxIterations) 0
          rw [hrun]
          simp

/-- Witness for `executeTask_iteration_bound`: spec scenario D —
single-model mode, per-task cap 3, a stub that always emits one
`list_files` tool call; `success` is false and exactly 3 LLM calls are
made. -/
theorem executeTask_iteration_bound_witness :
    (⟨⟨false, 3, false, false⟩, 3⟩ : TaskOutcome).result.iterations ≤
      (some 3).getD 30 ∧
    (⟨⟨false, 3, false, false⟩, 3⟩ : TaskOutcome).llmCalls ≤
      (some 3).getD 30 + 2 ∧
    ((⟨false, 30, false⟩ : AgentCfg).useMultiModel = false →
      (⟨⟨false, 3, false, false⟩, 3⟩ : TaskOutcome).llmCalls =
        (⟨⟨false, 3, false, false⟩, 3⟩ : TaskOutcome).result.iterations) ∧
    ((∀ i, ((fun _ : Nat => (⟨[], ["list_files".data]⟩ : LLMReply)) i).toolCalls ≠ []) →
      (⟨⟨false, 3, false, false⟩, 3⟩ : TaskOutcome).result.success = false ∧
      (⟨⟨false, 3, false, false⟩, 3⟩ : TaskOutcome).result.iterations =
        (some 3).getD 30 ∧
      (⟨⟨false, 3, false, false⟩, 3⟩ : TaskOutcome).llmCalls =
        (if (⟨false, 30, false⟩ : AgentCfg).useMultiModel && !false then 1
         else 0) + (some 3).getD 30) :=
  executeTask_iteration_bound ⟨false, 30, false⟩
    (fun _ => ⟨[], ["list_files".data]⟩) true (some 3) false false
    ⟨⟨false, 3, false, false⟩, 3⟩ rfl

/-- Claim C4 counterexample.  With multi-model mode on (planning
enabled) and a per-task cap of 3, a stub that always emits a tool call
drives `execute_task` through 1 planning call plus 3 loop calls — 4 LLM
calls in total, exceeding the claimed bound `max_iterations = 3`
(`success` is false, as claimed). -/
theorem executeTask_C4_counterexample :
    executeTask ⟨true, 30, false⟩ (fun _ => ⟨[], ["list_files".data]⟩)
        true (some 3) false false = .ok ⟨⟨false, 3, false, false⟩, 4⟩ ∧
    3 < (4 : Nat) := ⟨rfl, by decide⟩

/-- Claim C3 (amended).  Git review phase: the returned result carries a
`git_review` section **iff** the workspace is a git repository **and**
the validation phase ran (multi-model mode on, validation not skipped,
and the execution loop succeeded) — not, as claimed, for every call in a
git repository regardless of the optional phases. -/
theorem executeTask_gitReview (cfg : AgentCfg) (stub : Nat → LLMReply)
    (v : Bool) (ov : Option Nat) (sp sv : Bool) (out : TaskOutcome)
    (hout : executeTask cfg stub v ov sp sv = .ok out) :
    out.result.hasGitReview =
      (out.result.hasValidation && cfg.isGitRepo) := by
  simp only [executeTask] at hout
  split at hout
  · exact absurd hout (by simp)
  · split at hout
    · exact absurd hout (by simp)
    · split at hout
      · rw [Except.ok.injEq] at hout
        subst hout
        simp
      · rw [Except.ok.injEq] at hout
        subst hout
        simp

/-- Witness for `executeTask_gitReview`: a multi-model run in a git
repository whose stub answers immediately; validation runs and the
result carries the git review. -/
theorem executeTask_gitReview_witness :
    (⟨⟨true, 1, true, true⟩, 3⟩ : TaskOutcome).result.hasGitReview =
      ((⟨⟨true, 1, true, true⟩, 3⟩ : TaskOutcome).result.hasValidation &&
        (⟨true, 30, true⟩ : AgentCfg).isGitRepo) :=
  executeTask_gitReview ⟨true, 30, true⟩ (fun _ => ⟨"done".data, []⟩)
    true none false false ⟨⟨true, 1, true, true⟩, 3⟩ rfl

/-- Claim C3 counterexample.  A successful `execute_task` call in a git
repository (`isGitRepo = true`) with multi-model mode off: the result
contains no `git_review` section, because the git review block sits
inside the validation branch of the result assembly. -/
theorem executeTask_C3_counterexample :
    executeTask ⟨false, 30, true⟩ (fun _ => ⟨"done".data, []⟩) true none
        false false = .ok ⟨⟨true, 1, false, false⟩, 1⟩ ∧
    (⟨⟨true, 1, false, false⟩, 1⟩ : TaskOutcome).result.hasGitReview = false :=
  ⟨rfl, rfl⟩

/-! Deadlock detection and auto-replan inside the execution loop of
`execute_task` (modern_ai_agent.py): after appending each tool result,
the loop scans it for the blocking patterns, compares the call signature
`(tool_name, json.dumps(tool_args, sort_keys=True))` with the previous
one, and on a blocking pattern or an immediate repeat sets the one-shot
`force_complex_model` flag and appends a synthesized user message naming
the offending tool and quoting its result verbatim.  At the top of the
next iteration the model selection honours the flag first and clears
it. -/

/-- The `blocking_patterns` list of `execute_task`. -/
def blockingPatterns : List (List Char) :=
  [sentinelBloqueio, "AÇÃO BLOQUEADA".data, "REPLANEJAMENTO NECESSÁRIO".data,
   "⚠️ Arquivo".data, "JÁ EXISTE com conteúdo diferente".data,
   "pode travar o processo".data, "AVISO: Este comando".data]

/-- `any(pattern in tool_result for pattern in blocking_patterns)`. -/
def isBlockingResult (result : List Char) : Bool :=
  blockingPatterns.any (fun p => containsSub p result)

/-- A call signature: tool name and canonical (key-sorted) arguments, as
produced by `json.dumps(tool_args, sort_keys=True)`. -/
def CallSignature : Type := List Char × List (List Char × List Char)

instance : DecidableEq CallSignature :=
  inferInstanceAs (DecidableEq (List Char × List (List Char × List Char)))

/-- A transcript entry. -/
inductive Message where
  | system (content : List Char)
  | user (content : List Char)
  | assistant (content : List Char)
  | tool (id : Nat) (content : List Char)
deriving DecidableEq

/-- The in-loop mutable state of `execute_task` that the deadlock
detector reads and writes. -/
structure LoopState where
  forceComplexModel : Bool
  lastSignature : Option CallSignature
  repeatedCallCount : Nat
  blockingCount : Nat
  messages : List Message
  actionsTaken : List (List Char)
deriving DecidableEq

/-- An `actions_taken` entry:
`f"[⟨tool⟩] ⟨str(args)[:100]⟩ → ⟨result[:100]⟩"`. -/
def actionEntry (toolName argsRepr result : List Char) : List Char :=
  "[".data ++ toolName ++ "] ".data ++ argsRepr.take 100 ++ " → ".data ++
    result.take 100

/-- `"\n".join(actions_taken[-5:]) if actions_taken else
"Nenhuma ação anterior"`. -/
def recentActionsText (actions : List (List Char)) : List Char :=
  if actions = [] then "Nenhuma ação anterior".data
  else ((actions.drop (actions.length - 5)).intersperse "\n".data).flatten

/-- The fixed guidance tail of the synthesized replan message. -/
def replanGuidance : List Char :=
  ("\n\n✅ AÇÕES CORRETAS (escolha UMA):\n" ++
   "1. ACEITAR o arquivo existente\n" ++
   "2. Usar read_file para verificar o conteúdo atual\n" ++
   "3. Usar edit_lines ou insert_lines\n" ++
   "4. Usar force_write_file APENAS se realmente precisar sobrescrever\n\n" ++
   "❌ NÃO FAÇA:\n- NÃO repita a mesma ação que causou o bloqueio\n").data

/-- The synthesized replan user message: names the offending tool,
quotes the blocking result verbatim, and lists the recent actions. -/
def replanInstruction (toolName result recentActions : List Char) : List Char :=
  "🚨 BLOQUEIO - MODELO COMPLEXO ATIVADO\n\nA ferramenta `".data ++
  toolName ++
  ("` retornou um BLOQUEIO:\n\n```\n".data ++ result ++
   ("\n```\n\n📋 HISTÓRICO RECENTE DE AÇÕES:\n".data ++ recentActions ++
    replanGuidance))

/-- Processing of one tool result by the deadlock detector (step 3d of
the loop): append the tool message, record the action, update the
repeat counter and, on a blocking pattern or an immediate repeat, set
the one-shot flag, bump the blocking counter, inject the replan message
and reset the repeat tracking. -/
def processToolResult (s : LoopState) (callId : Nat) (toolName : List Char)
    (canonArgs : List (List Char × List Char)) (argsRepr result : List Char) :
    LoopState :=
  let blocking := isBlockingResult result
  let sig : CallSignature := (toolName, canonArgs)
  let repeated :=
    if some sig = s.lastSignature then s.repeatedCallCount + 1 else 0
  let lastSig :=
    if some sig = s.lastSignature then s.lastSignature else some sig
  let actions := s.actionsTaken ++ [actionEntry toolName argsRepr result]
  let msgs := s.messages ++ [.tool callId result]
  if blocking = true ∨ repeated ≥ 1 then
    { forceComplexModel := true,
      lastSignature := none,
      repeatedCallCount := 0,
      blockingCount := s.blockingCount + 1,
      messages := msgs ++
        [.user (replanInstruction toolName result (recentActionsText actions))],
      actionsTaken := actions }
  else
    { forceComplexModel := s.forceComplexModel,
      lastSignature := lastSig,
      repeatedCallCount := repeated,
      blockingCount := if s.blockingCount > 0 then 0 else s.blockingCount,
      messages := msgs,
      actionsTaken := actions }

/-- A model endpoint as chosen by the router. -/
inductive Endpoint where
  | simple
  | complex
  | override (name : List Char)
deriving DecidableEq

/-- The four cognitive stub tools. -/
def cognitiveTools : List (List Char) :=
  ["analyze_error".data, "replan_approach".data, "validate_result".data,
   "progress_checkpoint".data]

/-- `_get_model_config_for_tools`: cognitive tools force the complex
endpoint; then per-tool overrides (first match wins); then any
`complex`-tagged tool (multi-model mode only); else simple. -/
def getModelForTools (useMultiModel : Bool)
    (toolComplexityComplex : List Char → Bool)
    (overrides : List (List Char × Endpoint))
    (toolNames : List (List Char)) : Endpoint :=
  if toolNames.any (fun n => cognitiveTools.contains n) then .complex
  else
    match toolNames.findSome?
        (fun n => (overrides.find? (fun p => p.1 == n)).map Prod.snd) with
    | some ep => ep
    | none =>
      if useMultiModel && toolNames.any toolComplexityComplex then .complex
      else .simple

/-- The model selection at the top of each loop iteration: the one-shot
`force_complex_model` flag wins and is cleared after use; otherwise the
router inspects the previous tool calls. -/
def selectModel (s : LoopState) (useMultiModel : Bool)
    (toolComplexityComplex : List Char → Bool)
    (overrides : List (List Char × Endpoint))
    (prevToolNames : List (List Char)) : Endpoint × LoopState :=
  if s.forceComplexModel then
    (.complex, { s with forceComplexModel := false })
  else
    (getModelForTools useMultiModel toolComplexityComplex overrides
      prevToolNames, s)

/-- Claim C6.  Auto-replan triggering: whenever a tool result begins
with the blocking sentinel, or the call repeats the immediately
preceding `(tool-name, canonical-json-arguments)` signature, the
detector sets the one-shot force flag, appends (after the tool message)
a replan user message that contains the offending tool name and the
verbatim blocking result, and the next model selection returns the
complex endpoint with the flag cleared. -/
theorem autoReplan_triggering (s : LoopState) (callId : Nat)
    (toolName : List Char) (canonArgs : List (List Char × List Char))
    (argsRepr result : List Char)
    (htrig : sentinelBloqueio <+: result ∨
      s.lastSignature = some (toolName, canonArgs)) :
    (processToolResult s callId toolName canonArgs argsRepr
        result).forceComplexModel = true ∧
    (processToolResult s callId toolName canonArgs argsRepr
        result).messages =
      s.messages ++ [.tool callId result,
        .user (replanInstruction toolName result (recentActionsText
          (s.actionsTaken ++ [actionEntry toolName argsRepr result])))] ∧
    toolName <:+: replanInstruction toolName result (recentActionsText
      (s.actionsTaken ++ [actionEntry toolName argsRepr result])) ∧
    result <:+: replanInstruction toolName result (recentActionsText
      (s.actionsTaken ++ [actionEntry toolName argsRepr result])) ∧
    ∀ useMM tc ov names,
      selectModel (processToolResult s callId toolName canonArgs argsRepr
          result) useMM tc ov names =
        (.complex, { processToolResult s callId toolName canonArgs argsRepr
            result with forceComplexModel := false }) := by
  have hpos : isBlockingResult result = true ∨
      (if some ((toolName, canonArgs) : CallSignature) = s.lastSignature
        then s.repeatedCallCount + 1 else 0) ≥ 1 := by
    rcases htrig with h | h
    · left
      unfold isBlockingResult
      rw [List.any_eq_true]
      refine ⟨sentinelBloqueio, List.mem_cons_self _ _, ?_⟩
      unfold containsSub
      exact decide_eq_true (h.isInfix)
    · right
      rw [h]
      simp
  have hstep : processToolResult s callId toolName canonArgs argsRepr result =
      { forceComplexModel := true,
        lastSignature := none,
        repeatedCallCount := 0,
        blockingCount := s.blockingCount + 1,
        messages := (s.messages ++ [.tool callId result]) ++
          [.user (replanInstruction toolName result (recentActionsText
            (s.actionsTaken ++ [actionEntry toolName argsRepr result])))],
        actionsTaken :=
          s.actionsTaken ++ [actionEntry toolName argsRepr result] } := by
    simp only [processToolResult]
    rw [if_pos hpos]
  refine ⟨by rw [hstep], by rw [hstep]; simp, ?_, ?_, ?_⟩
  · exact ⟨"🚨 BLOQUEIO - MODELO COMPLEXO ATIVADO\n\nA ferramenta `".data,
      ("` retornou um BLOQUEIO:\n\n```\n".data ++ result ++
       ("\n```\n\n📋 HISTÓRICO RECENTE DE AÇÕES:\n".data ++
        recentActionsText
          (s.actionsTaken ++ [actionEntry toolName argsRepr result]) ++
        replanGuidance)),
      by simp [replanInstruction, List.append_assoc]⟩
  · exact ⟨"🚨 BLOQUEIO - MODELO COMPLEXO ATIVADO\n\nA ferramenta `".data ++
        toolName ++ "` retornou um BLOQUEIO:\n\n```\n".data,
      "\n```\n\n📋 HISTÓRICO RECENTE DE AÇÕES:\n".data ++
        recentActionsText
          (s.actionsTaken ++ [actionEntry toolName argsRepr result]) ++
        replanGuidance,
      by simp [replanInstruction, List.append_assoc]⟩
  · intro useMM tc ov names
    unfold selectModel
    rw [hstep]
    simp

/-- Witness for `autoReplan_triggering`: a blocked `write_file` result
in a fresh loop state. -/
theorem autoReplan_triggering_witness :
    (processToolResult ⟨false, none, 0, 0, [], []⟩ 7 "write_file".data
        [("filepath".data, "main.py".data)] "args".data
        "🚫 BLOQUEIO: Arquivo existe".data).forceComplexModel = true ∧
    (processToolResult ⟨false, none, 0, 0, [], []⟩ 7 "write_file".data
        [("filepath".data, "main.py".data)] "args".data
        "🚫 BLOQUEIO: Arquivo existe".data).messages =
      ([] : List Message) ++ [.tool 7 "🚫 BLOQUEIO: Arquivo existe".data,
        .user (replanInstruction "write_file".data
          "🚫 BLOQUEIO: Arquivo existe".data (recentActionsText
          (([] : List (List Char)) ++ [actionEntry "write_file".data
            "args".data "🚫 BLOQUEIO: Arquivo existe".data])))] ∧
    "write_file".data <:+: replanInstruction "write_file".data
      "🚫 BLOQUEIO: Arquivo existe".data (recentActionsText
      (([] : List (List Char)) ++ [actionEntry "write_file".data "args".data
        "🚫 BLOQUEIO: Arquivo existe".data])) ∧
    "🚫 BLOQUEIO: Arquivo existe".data <:+: replanInstruction
      "write_file".data "🚫 BLOQUEIO: Arquivo existe".data (recentActionsText
      (([] : List (List Char)) ++ [actionEntry "write_file".data "args".data
        "🚫 BLOQUEIO: Arquivo existe".data])) ∧
    ∀ useMM tc ov names,
      selectModel (processToolResult ⟨false, none, 0, 0, [], []⟩ 7
          "write_file".data [("filepath".data, "main.py".data)] "args".data
          "🚫 BLOQUEIO: Arquivo existe".data) useMM tc ov names =
        (.complex, { processToolResult ⟨false, none, 0, 0, [], []⟩ 7
            "write_file".data [("filepath".data, "main.py".data)]
            "args".data "🚫 BLOQUEIO: Arquivo existe".data with
            forceComplexModel := false }) :=
  autoReplan_triggering ⟨false, none, 0, 0, [], []⟩ 7 "write_file".data
    [("filepath".data, "main.py".data)] "args".data
    "🚫 BLOQUEIO: Arquivo existe".data (Or.inl (by decide))
